import Mathlib

/-!
# Verification of the PNG chunk-type tag module

A shallow embedding of `src/chunk_type.rs`: the `ChunkType` value type
(4 bytes, each modelled as a `Nat` below 256), its two constructors
(`try_from` from a raw 4-byte array, `from_str` from a UTF-8 text given by
its byte sequence), the classification predicates, the display rendering,
and the derived equality.  Fallible operations return `Except CtError`;
operations that may panic in the source (out-of-bounds indexing, `expect`)
return an `Option`, with `none` marking a panic.
-/

namespace PngForMe

/-- `struct ChunkType { bytes: [u8;4] }`: an immutable 4-byte tag.
The Rust fixed array `[u8;4]` is modelled by four `Nat` fields. -/
structure ChunkType where
  b0 : Nat
  b1 : Nat
  b2 : Nat
  b3 : Nat
deriving DecidableEq, Repr

/-- `ChunkType::bytes`: returns a copy of the 4 bytes (as a list, in order). -/
def ChunkType.bytes (c : ChunkType) : List Nat :=
  [c.b0, c.b1, c.b2, c.b3]

/-- `ChunkType::is_valid_byte`: `(byte >= 65 && byte <= 90) || (byte >= 97 && byte <= 122)`. -/
def ChunkType.is_valid_byte (byte : Nat) : Bool :=
  (65 ≤ byte && byte ≤ 90) || (97 ≤ byte && byte ≤ 122)

/-- `u8::is_ascii_uppercase`: the byte is in `b'A'..=b'Z'`. -/
def is_ascii_uppercase (b : Nat) : Bool :=
  65 ≤ b && b ≤ 90

/-- `u8::is_ascii_lowercase`: the byte is in `b'a'..=b'z'`. -/
def is_ascii_lowercase (b : Nat) : Bool :=
  97 ≤ b && b ≤ 122

/-- `ChunkType::is_critical`: byte 0 is ASCII uppercase. -/
def ChunkType.is_critical (c : ChunkType) : Bool :=
  is_ascii_uppercase c.b0

/-- `ChunkType::is_public`: byte 1 is ASCII uppercase. -/
def ChunkType.is_public (c : ChunkType) : Bool :=
  is_ascii_uppercase c.b1

/-- `ChunkType::is_reserved_bit_valid`: byte 2 is ASCII uppercase. -/
def ChunkType.is_reserved_bit_valid (c : ChunkType) : Bool :=
  is_ascii_uppercase c.b2

/-- `ChunkType::is_safe_to_copy`: byte 3 is ASCII lowercase. -/
def ChunkType.is_safe_to_copy (c : ChunkType) : Bool :=
  is_ascii_lowercase c.b3

/-- `ChunkType::is_valid`: the reserved bit is valid and every byte passes
`is_valid_byte`. -/
def ChunkType.is_valid (c : ChunkType) : Bool :=
  c.is_reserved_bit_valid &&
  ChunkType.is_valid_byte c.b0 &&
  ChunkType.is_valid_byte c.b1 &&
  ChunkType.is_valid_byte c.b2 &&
  ChunkType.is_valid_byte c.b3

/-- The two error kinds the module produces (both built with `anyhow::bail!`):
an invalid byte in the raw constructor, a failed precondition in the text
constructor. -/
inductive CtError where
  | invalidByte (value : Nat)
  | malformedInput
deriving DecidableEq, Repr

/-- The `anyhow` error message attached to each error kind, exactly as the
source format strings render it. -/
def CtError.message : CtError → String
  | .invalidByte v =>
      "Invalid byte " ++ toString v ++
      ". Valid bytes are ASCII A-Z and a-z, or 65-90 and 97-122"
  | .malformedInput => "String must be 4 ASCII bytes"

/-- The `for byte in value.iter()` loop of `TryFrom::try_from`: bails with
`invalidByte` at the first byte failing `is_valid_byte`. -/
def checkBytes : List Nat → Except CtError Unit
  | [] => .ok ()
  | b :: rest =>
      if !ChunkType.is_valid_byte b then .error (.invalidByte b)
      else checkBytes rest

/-- `impl TryFrom<[u8;4]> for ChunkType`: validate all four bytes, then wrap
them unchanged. -/
def try_from (v0 v1 v2 v3 : Nat) : Except CtError ChunkType :=
  match checkBytes [v0, v1, v2, v3] with
  | .error e => .error e
  | .ok _ => .ok ⟨v0, v1, v2, v3⟩

/-- `str::is_ascii`: every byte of the text is at most `0x7F`. -/
def is_ascii (s : List Nat) : Bool :=
  s.all (fun b => b ≤ 0x7F)

/-- `impl FromStr for ChunkType`, on the byte sequence of the input text.
The source indexes `bytes[0] .. bytes[3]` after the precondition check;
an out-of-bounds index panics, modelled as `none`. -/
def from_str (s : List Nat) : Option (Except CtError ChunkType) :=
  if s.length != 4 && !(is_ascii s) then
    some (.error .malformedInput)
  else
    match s[0]?, s[1]?, s[2]?, s[3]? with
    | some a, some b, some c, some d => some (try_from a b c d)
    | _, _, _, _ => none

/-- A UTF-8 continuation byte, `0x80 ..= 0xBF`. -/
def isCont (b : Nat) : Bool :=
  0x80 ≤ b && b ≤ 0xBF

/-- The byte at index `i`, when present, lies in `lo ..= hi`. -/
def rangeAt (l : List Nat) (i lo hi : Nat) : Bool :=
  match l[i]? with
  | some c => lo ≤ c && c ≤ hi
  | none => false

/-- The byte at index `i`, when present, is a continuation byte. -/
def contAt (l : List Nat) (i : Nat) : Bool :=
  rangeAt l i 0x80 0xBF

/-- Validity of a byte sequence as UTF-8, as `std::str::from_utf8` checks it
(well-formed sequences only: no overlong forms, no surrogates, max U+10FFFF). -/
def validUtf8 (l : List Nat) : Bool :=
  match l with
  | [] => true
  | b :: rest =>
      if b ≤ 0x7F then validUtf8 rest
      else if 0xC2 ≤ b && b ≤ 0xDF then
        contAt rest 0 && validUtf8 (rest.drop 1)
      else if b = 0xE0 then
        rangeAt rest 0 0xA0 0xBF && contAt rest 1 && validUtf8 (rest.drop 2)
      else if 0xE1 ≤ b && b ≤ 0xEC then
        contAt rest 0 && contAt rest 1 && validUtf8 (rest.drop 2)
      else if b = 0xED then
        rangeAt rest 0 0x80 0x9F && contAt rest 1 && validUtf8 (rest.drop 2)
      else if 0xEE ≤ b && b ≤ 0xEF then
        contAt rest 0 && contAt rest 1 && validUtf8 (rest.drop 2)
      else if b = 0xF0 then
        rangeAt rest 0 0x90 0xBF && contAt rest 1 && contAt rest 2 &&
          validUtf8 (rest.drop 3)
      else if 0xF1 ≤ b && b ≤ 0xF3 then
        contAt rest 0 && contAt rest 1 && contAt rest 2 && validUtf8 (rest.drop 3)
      else if b = 0xF4 then
        rangeAt rest 0 0x80 0x8F && contAt rest 1 && contAt rest 2 &&
          validUtf8 (rest.drop 3)
      else false
  termination_by l.length
  decreasing_by
    all_goals simp [List.length_drop]
    all_goals omega

/-- `impl Display for ChunkType`: renders the 4 bytes through
`std::str::from_utf8(..).expect(..)`.  The `expect` panics when the bytes are
not valid UTF-8, modelled as `none`; otherwise the rendered text is exactly
the 4 bytes. -/
def to_string (c : ChunkType) : Option (List Nat) :=
  if validUtf8 c.bytes then some c.bytes else none

/-- The derived `PartialEq` on `ChunkType`: the two `bytes` arrays are
compared elementwise. -/
def ctEq (t u : ChunkType) : Bool :=
  t.bytes == u.bytes

/-! ## Helper lemmas -/

theorem checkBytes_eq_find (l : List Nat) :
    checkBytes l =
      (match l.find? (fun x => !ChunkType.is_valid_byte x) with
       | some v => .error (.invalidByte v)
       | none => .ok ()) := by
  induction l with
  | nil => rfl
  | cons b rest ih =>
      by_cases hb : ChunkType.is_valid_byte b = true
      · simp [checkBytes, List.find?, hb, ih]
      · simp [checkBytes, List.find?, hb]

theorem try_from_ok_inv (v0 v1 v2 v3 : Nat) (t : ChunkType)
    (h : try_from v0 v1 v2 v3 = .ok t) :
    t = ⟨v0, v1, v2, v3⟩ ∧ ∀ b ∈ [v0, v1, v2, v3], ChunkType.is_valid_byte b = true := by
  rw [try_from, checkBytes_eq_find] at h
  rcases hf : [v0, v1, v2, v3].find? (fun x => !ChunkType.is_valid_byte x) with _ | v
  · rw [hf] at h
    simp only [Except.ok.injEq] at h
    refine ⟨h.symm, ?_⟩
    intro b hb
    have := List.find?_eq_none.mp hf b hb
    simpa using this
  · rw [hf] at h
    simp at h

theorem try_from_ne_malformed (v0 v1 v2 v3 : Nat) :
    try_from v0 v1 v2 v3 ≠ .error .malformedInput := by
  rw [try_from, checkBytes_eq_find]
  rcases hf : [v0, v1, v2, v3].find? (fun x => !ChunkType.is_valid_byte x) with _ | v <;>
    simp

theorem valid_byte_le (b : Nat) (h : ChunkType.is_valid_byte b = true) : b ≤ 0x7F := by
  simp only [ChunkType.is_valid_byte, Bool.or_eq_true, Bool.and_eq_true,
    decide_eq_true_eq] at h
  omega

theorem validUtf8_ascii (l : List Nat) (h : ∀ b ∈ l, b ≤ 0x7F) : validUtf8 l = true := by
  induction l with
  | nil => simp [validUtf8]
  | cons b rest ih =>
      rw [validUtf8, if_pos (h b (by simp))]
      exact ih fun x hx => h x (by simp [hx])

theorem from_str_ok_inv (s : List Nat) (t : ChunkType)
    (h : from_str s = some (.ok t)) :
    ∃ a b c d, try_from a b c d = .ok t := by
  by_cases hc : (s.length != 4 && !(is_ascii s)) = true
  · rw [from_str, if_pos hc] at h
    simp at h
  · rw [from_str, if_neg hc] at h
    rcases s with _ | ⟨a, _ | ⟨b, _ | ⟨c, _ | ⟨d, rest⟩⟩⟩⟩ <;> simp at h
    exact ⟨a, b, c, d, h⟩

theorem constructed_all_valid (v0 v1 v2 v3 : Nat) (s : List Nat) (t : ChunkType)
    (h : try_from v0 v1 v2 v3 = .ok t ∨ from_str s = some (.ok t)) :
    ∀ b ∈ t.bytes, ChunkType.is_valid_byte b = true := by
  rcases h with h | h
  · obtain ⟨rfl, hall⟩ := try_from_ok_inv _ _ _ _ _ h
    simpa [ChunkType.bytes] using hall
  · obtain ⟨a, b, c, d, h⟩ := from_str_ok_inv s t h
    obtain ⟨rfl, hall⟩ := try_from_ok_inv _ _ _ _ _ h
    simpa [ChunkType.bytes] using hall

/-! ## Claim theorems -/

/-- C1: the claim states that `from_str` can only return a `Tag` or one of
the two construction errors — in particular no panic when the precondition
check passes, including for all-ASCII strings shorter than 4 bytes.  The
code violates this: on the text `"Rut"` (bytes `[82, 117, 116]`, all ASCII,
length 3) the precondition `len != 4 && !is_ascii` passes, and indexing
`bytes[3]` goes out of bounds — the panic the model records as `none`. -/
theorem from_str_panics_on_Rut_c1 : from_str [82, 117, 116] = none := rfl

/-- C3: for every 4-byte array in which each byte lies in 65–90 or 97–122,
`try_from` succeeds and the `bytes` accessor of the resulting tag returns
the input array unchanged. -/
theorem try_from_letters_ok_c3 (v0 v1 v2 v3 : Nat)
    (h0 : (65 ≤ v0 ∧ v0 ≤ 90) ∨ (97 ≤ v0 ∧ v0 ≤ 122))
    (h1 : (65 ≤ v1 ∧ v1 ≤ 90) ∨ (97 ≤ v1 ∧ v1 ≤ 122))
    (h2 : (65 ≤ v2 ∧ v2 ≤ 90) ∨ (97 ≤ v2 ∧ v2 ≤ 122))
    (h3 : (65 ≤ v3 ∧ v3 ≤ 90) ∨ (97 ≤ v3 ∧ v3 ≤ 122)) :
    ∃ t, try_from v0 v1 v2 v3 = .ok t ∧ t.bytes = [v0, v1, v2, v3] := by
  have e0 : ChunkType.is_valid_byte v0 = true := by
    simp only [ChunkType.is_valid_byte, Bool.or_eq_true, Bool.and_eq_true,
      decide_eq_true_eq]
    omega
  have e1 : ChunkType.is_valid_byte v1 = true := by
    simp only [ChunkType.is_valid_byte, Bool.or_eq_true, Bool.and_eq_true,
      decide_eq_true_eq]
    omega
  have e2 : ChunkType.is_valid_byte v2 = true := by
    simp only [ChunkType.is_valid_byte, Bool.or_eq_true, Bool.and_eq_true,
      decide_eq_true_eq]
    omega
  have e3 : ChunkType.is_valid_byte v3 = true := by
    simp only [ChunkType.is_valid_byte, Bool.or_eq_true, Bool.and_eq_true,
      decide_eq_true_eq]
    omega
  exact ⟨⟨v0, v1, v2, v3⟩, by simp [try_from, checkBytes, e0, e1, e2, e3], rfl⟩

/-- Witness for C3 at the concrete array `[82, 117, 83, 116]`. -/
theorem try_from_letters_ok_c3_witness :
    ∃ t, try_from 82 117 83 116 = .ok t ∧ t.bytes = [82, 117, 83, 116] :=
  try_from_letters_ok_c3 82 117 83 116 (by decide) (by decide) (by decide) (by decide)

/-- C4: for every 4-byte array with at least one byte outside 65–90 and
97–122, `try_from` fails with an `invalidByte` error carrying the first
(lowest-index) offending byte, and the error message names that byte value
and the valid ranges 65–90 and 97–122. -/
theorem try_from_invalid_byte_c4 (v0 v1 v2 v3 : Nat)
    (h : ∃ b ∈ [v0, v1, v2, v3], ¬((65 ≤ b ∧ b ≤ 90) ∨ (97 ≤ b ∧ b ≤ 122))) :
    ∃ v, [v0, v1, v2, v3].find? (fun x => !ChunkType.is_valid_byte x) = some v ∧
      try_from v0 v1 v2 v3 = .error (.invalidByte v) ∧
      (CtError.invalidByte v).message =
        "Invalid byte " ++ toString v ++
        ". Valid bytes are ASCII A-Z and a-z, or 65-90 and 97-122" := by
  obtain ⟨b, hb, hbad⟩ := h
  have hsome : ([v0, v1, v2, v3].find? (fun x => !ChunkType.is_valid_byte x)).isSome := by
    rw [List.find?_isSome]
    refine ⟨b, hb, ?_⟩
    simp only [ChunkType.is_valid_byte, Bool.not_eq_eq_eq_not, Bool.not_true,
      Bool.or_eq_false_iff, Bool.and_eq_false_iff, decide_eq_false_iff_not]
    omega
  obtain ⟨v, hv⟩ := Option.isSome_iff_exists.mp hsome
  refine ⟨v, hv, ?_, rfl⟩
  rw [try_from, checkBytes_eq_find, hv]

/-- Witness for C4 at `[82, 49, 83, 116]`: the second byte 49 is invalid. -/
theorem try_from_invalid_byte_c4_witness :
    ∃ v, [82, 49, 83, 116].find? (fun x => !ChunkType.is_valid_byte x) = some v ∧
      try_from 82 49 83 116 = .error (.invalidByte v) ∧
      (CtError.invalidByte v).message =
        "Invalid byte " ++ toString v ++
        ". Valid bytes are ASCII A-Z and a-z, or 65-90 and 97-122" :=
  try_from_invalid_byte_c4 82 49 83 116 ⟨49, by decide, by decide⟩

/-- C2: `from_str` fails with `malformedInput` exactly when the byte length
is not 4 and the text is not all-ASCII; consequently every all-ASCII input
longer than 4 bytes passes the precondition and only its first 4 bytes feed
the raw constructor. -/
theorem from_str_malformed_iff_c2 (s : List Nat) :
    (from_str s = some (.error .malformedInput) ↔
      (s.length ≠ 4 ∧ is_ascii s = false)) ∧
    (is_ascii s = true → 4 < s.length →
      ∃ a b c d rest, s = a :: b :: c :: d :: rest ∧
        from_str s = some (try_from a b c d)) := by
  constructor
  · by_cases hc : (s.length != 4 && !(is_ascii s)) = true
    · rw [from_str, if_pos hc]
      simp only [Bool.and_eq_true, bne_iff_ne, Bool.not_eq_true'] at hc
      simp [hc]
    · rw [from_str, if_neg hc]
      constructor
      · intro h
        rcases s with _ | ⟨a, _ | ⟨b, _ | ⟨c, _ | ⟨d, rest⟩⟩⟩⟩ <;> simp at h
        exact absurd h (try_from_ne_malformed a b c d)
      · rintro ⟨hlen, hasc⟩
        exact absurd (by simp [hlen, hasc]) hc
  · intro hasc hlen
    rcases s with _ | ⟨a, _ | ⟨b, _ | ⟨c, _ | ⟨d, rest⟩⟩⟩⟩ <;> simp at hlen
    refine ⟨a, b, c, d, rest, rfl, ?_⟩
    rw [from_str, if_neg (by simp [hasc])]
    simp

/-- Witness for C2 at the 5-byte all-ASCII input `"RuSta"`. -/
theorem from_str_malformed_iff_c2_witness :
    ∃ a b c d rest, [82, 117, 83, 116, 97] = a :: b :: c :: d :: rest ∧
      from_str [82, 117, 83, 116, 97] = some (try_from a b c d) :=
  (from_str_malformed_iff_c2 [82, 117, 83, 116, 97]).2 (by decide) (by decide)

/-- C5: round trip — for every tag obtained from the raw constructor,
rendering succeeds with exactly the tag's bytes, parsing that text back
yields the same tag, and rebuilding from the `bytes` accessor yields the
same tag. -/
theorem round_trip_c5 (v0 v1 v2 v3 : Nat) (s : List Nat) (t : ChunkType)
    (hcon : try_from v0 v1 v2 v3 = .ok t ∨ from_str s = some (.ok t)) :
    to_string t = some t.bytes ∧
    from_str t.bytes = some (.ok t) ∧
    try_from t.b0 t.b1 t.b2 t.b3 = .ok t := by
  obtain ⟨a, b, c, d, h⟩ :
      ∃ a b c d, try_from a b c d = .ok t := by
    rcases hcon with h | h
    · exact ⟨v0, v1, v2, v3, h⟩
    · exact from_str_ok_inv s t h
  obtain ⟨ht, hall⟩ := try_from_ok_inv _ _ _ _ _ h
  subst ht
  have hle : ∀ x ∈ (ChunkType.mk a b c d).bytes, x ≤ 0x7F := by
    intro x hx
    exact valid_byte_le x (hall x (by simpa [ChunkType.bytes] using hx))
  refine ⟨?_, ?_, h⟩
  · rw [to_string, if_pos (validUtf8_ascii _ hle)]
  · simp only [ChunkType.bytes, from_str]
    rw [if_neg (by simp)]
    simpa using h

/-- Witness for C5 at the tag built from `[82, 117, 83, 116]`. -/
theorem round_trip_c5_witness :
    to_string ⟨82, 117, 83, 116⟩ = some (ChunkType.mk 82 117 83 116).bytes ∧
    from_str (ChunkType.mk 82 117 83 116).bytes = some (.ok ⟨82, 117, 83, 116⟩) ∧
    try_from 82 117 83 116 = .ok ⟨82, 117, 83, 116⟩ :=
  round_trip_c5 82 117 83 116 [] ⟨82, 117, 83, 116⟩ (Or.inl rfl)

/-- C6: every tag produced by either constructor has all 4 bytes in the
ASCII-letter ranges, and rendering always succeeds, producing exactly the
4 bytes in original order with no case transformation. -/
theorem invariant_letters_c6 (v0 v1 v2 v3 : Nat) (s : List Nat) (t : ChunkType)
    (h : try_from v0 v1 v2 v3 = .ok t ∨ from_str s = some (.ok t)) :
    (∀ b ∈ t.bytes, (65 ≤ b ∧ b ≤ 90) ∨ (97 ≤ b ∧ b ≤ 122)) ∧
    to_string t = some [t.b0, t.b1, t.b2, t.b3] := by
  have hall := constructed_all_valid v0 v1 v2 v3 s t h
  constructor
  · intro b hb
    have := hall b hb
    simp only [ChunkType.is_valid_byte, Bool.or_eq_true, Bool.and_eq_true,
      decide_eq_true_eq] at this
    exact this
  · have hle : ∀ b ∈ t.bytes, b ≤ 0x7F := fun b hb => valid_byte_le b (hall b hb)
    rw [to_string, if_pos (validUtf8_ascii _ hle)]
    rfl

/-- Witness for C6 at the tag built from `[82, 117, 83, 116]`. -/
theorem invariant_letters_c6_witness :
    (∀ b ∈ (ChunkType.mk 82 117 83 116).bytes,
      (65 ≤ b ∧ b ≤ 90) ∨ (97 ≤ b ∧ b ≤ 122)) ∧
    to_string ⟨82, 117, 83, 116⟩ = some [82, 117, 83, 116] :=
  invariant_letters_c6 82 117 83 116 [] ⟨82, 117, 83, 116⟩ (Or.inl rfl)

/-- C7: the tag parsed from `"RuSt"` is critical, not public, has a valid
reserved bit, is safe to copy, and is valid; and each predicate depends only
on the case of its designated byte. -/
theorem case_predicates_RuSt_c7 :
    (∃ t, from_str [82, 117, 83, 116] = some (.ok t) ∧
      t.is_critical = true ∧ t.is_public = false ∧
      t.is_reserved_bit_valid = true ∧ t.is_safe_to_copy = true ∧
      t.is_valid = true) ∧
    (∀ t u : ChunkType, t.b0 = u.b0 → t.is_critical = u.is_critical) ∧
    (∀ t u : ChunkType, t.b1 = u.b1 → t.is_public = u.is_public) ∧
    (∀ t u : ChunkType, t.b2 = u.b2 → t.is_reserved_bit_valid = u.is_reserved_bit_valid) ∧
    (∀ t u : ChunkType, t.b3 = u.b3 → t.is_safe_to_copy = u.is_safe_to_copy) := by
  refine ⟨⟨⟨82, 117, 83, 116⟩, rfl, rfl, rfl, rfl, rfl, rfl⟩, ?_, ?_, ?_, ?_⟩ <;>
    · intro t u h
      simp [ChunkType.is_critical, ChunkType.is_public,
        ChunkType.is_reserved_bit_valid, ChunkType.is_safe_to_copy, h]

/-- Witness for C7's dependence components at concrete tags sharing byte 0. -/
theorem case_predicates_RuSt_c7_witness :
    (ChunkType.mk 82 0 0 0).is_critical = (ChunkType.mk 82 9 9 9).is_critical :=
  case_predicates_RuSt_c7.2.1 ⟨82, 0, 0, 0⟩ ⟨82, 9, 9, 9⟩ rfl

/-- C8: the tag built from `"Rust"` (bytes `[82, 117, 115, 116]`, third byte
lowercase) is constructed successfully, yet its reserved bit is invalid and
it is not valid; and `is_valid` equals the reserved-bit check conjoined with
the four per-byte ASCII-letter checks. -/
theorem Rust_reserved_invalid_c8 :
    (∃ t, try_from 82 117 115 116 = .ok t ∧
      t.is_reserved_bit_valid = false ∧ t.is_valid = false) ∧
    (∀ t : ChunkType, t.is_valid =
      (t.is_reserved_bit_valid && ChunkType.is_valid_byte t.b0 &&
       ChunkType.is_valid_byte t.b1 && ChunkType.is_valid_byte t.b2 &&
       ChunkType.is_valid_byte t.b3)) :=
  ⟨⟨⟨82, 117, 115, 116⟩, rfl, rfl, rfl⟩, fun _ => rfl⟩

/-- C9: the derived equality holds iff the 4-byte arrays agree at every
position; it is reflexive, symmetric, and transitive; and the tag built from
`[82, 117, 83, 116]` equals the tag parsed from `"RuSt"`. -/
theorem tag_equality_c9 :
    (∀ t u : ChunkType, ctEq t u = true ↔ t = u) ∧
    (∀ t u : ChunkType, ctEq t u = true ↔
      (t.b0 = u.b0 ∧ t.b1 = u.b1 ∧ t.b2 = u.b2 ∧ t.b3 = u.b3)) ∧
    (∀ t : ChunkType, ctEq t t = true) ∧
    (∀ t u : ChunkType, ctEq t u = true → ctEq u t = true) ∧
    (∀ t u v : ChunkType, ctEq t u = true → ctEq u v = true → ctEq t v = true) ∧
    try_from 82 117 83 116 = .ok ⟨82, 117, 83, 116⟩ ∧
    from_str [82, 117, 83, 116] = some (.ok ⟨82, 117, 83, 116⟩) := by
  have hiff : ∀ t u : ChunkType, ctEq t u = true ↔ t = u := by
    intro t u
    cases t
    cases u
    simp [ctEq, ChunkType.bytes]
  refine ⟨hiff, ?_, ?_, ?_, ?_, rfl, rfl⟩
  · intro t u
    rw [hiff]
    cases t
    cases u
    simp
  · intro t
    exact (hiff t t).mpr rfl
  · intro t u h
    exact (hiff u t).mpr ((hiff t u).mp h).symm
  · intro t u v h1 h2
    exact (hiff t v).mpr (((hiff t u).mp h1).trans ((hiff u v).mp h2))

/-- Witness for C9's transitivity component at three equal concrete tags. -/
theorem tag_equality_c9_witness :
    ctEq ⟨82, 117, 83, 116⟩ ⟨82, 117, 83, 116⟩ = true :=
  tag_equality_c9.2.2.2.2.1 ⟨82, 117, 83, 116⟩ ⟨82, 117, 83, 116⟩
    ⟨82, 117, 83, 116⟩ rfl rfl

/-- C10: for every tag produced by either constructor, `is_valid` agrees
with `is_reserved_bit_valid` — validity reduces to byte 2 being uppercase,
the per-byte checks inside `is_valid` being guaranteed by construction. -/
theorem constructed_valid_iff_reserved_c10 (v0 v1 v2 v3 : Nat) (s : List Nat)
    (t : ChunkType)
    (h : try_from v0 v1 v2 v3 = .ok t ∨ from_str s = some (.ok t)) :
    t.is_valid = t.is_reserved_bit_valid ∧
    t.is_valid = is_ascii_uppercase t.b2 := by
  have hall := constructed_all_valid v0 v1 v2 v3 s t h
  have h0 : ChunkType.is_valid_byte t.b0 = true := hall _ (by simp [ChunkType.bytes])
  have h1 : ChunkType.is_valid_byte t.b1 = true := hall _ (by simp [ChunkType.bytes])
  have h2 : ChunkType.is_valid_byte t.b2 = true := hall _ (by simp [ChunkType.bytes])
  have h3 : ChunkType.is_valid_byte t.b3 = true := hall _ (by simp [ChunkType.bytes])
  constructor
  · simp [ChunkType.is_valid, h0, h1, h2, h3]
  · simp [ChunkType.is_valid, ChunkType.is_reserved_bit_valid, h0, h1, h2, h3]

/-- Witness for C10 at the tag built from `[82, 117, 83, 116]`. -/
theorem constructed_valid_iff_reserved_c10_witness :
    (ChunkType.mk 82 117 83 116).is_valid =
      (ChunkType.mk 82 117 83 116).is_reserved_bit_valid ∧
    (ChunkType.mk 82 117 83 116).is_valid = is_ascii_uppercase 83 :=
  constructed_valid_iff_reserved_c10 82 117 83 116 [] ⟨82, 117, 83, 116⟩ (Or.inl rfl)

end PngForMe
